import Mathlib

/-!
Verification of the UTFR-Dashboard local test-day folder discovery and
merge-import pipeline.

The definitions below are a shallow embedding of:
* `scanForTestDayFolders`, `importTestDayData`, `importGlobalSetups`
  (components/LocalGoogleDriveSync, src/unnamed/part_006), and
* `handleDataImported` (src/utfr-dashboard/src/components/UTFRDataDashboard.tsx),
with JavaScript strings modelled as Lean `String` / `List Char` and the
host-environment file enumeration modelled as a list of file entries.
-/

namespace UTFR

/-! ### Character classes of the JS regex `/^(\d{4}-\d{1,2}-\d{1,2})\s*[-_]\s*(.+)$/` -/

/-- JS `\d`: the ASCII digits. -/
def isDigitCh (c : Char) : Bool := 48 ≤ c.toNat && c.toNat ≤ 57

/-- JS `\s`: the ECMAScript WhiteSpace and LineTerminator characters. -/
def isWsCh (c : Char) : Bool :=
  let n := c.toNat
  n == 9 || n == 10 || n == 11 || n == 12 || n == 13 || n == 32 ||
  n == 0xA0 || n == 0x1680 || (0x2000 ≤ n && n ≤ 0x200A) ||
  n == 0x2028 || n == 0x2029 || n == 0x202F || n == 0x205F ||
  n == 0x3000 || n == 0xFEFF

/-- JS `.` without the `s` flag: any character except a line terminator. -/
def isDotCh (c : Char) : Bool :=
  let n := c.toNat
  !(n == 10 || n == 13 || n == 0x2028 || n == 0x2029)

/-- One character of `toLowerCase` restricted to ASCII letters (all reserved
names the scanner compares against are ASCII). -/
def toLowerCh (c : Char) : Char :=
  if 65 ≤ c.toNat && c.toNat ≤ 90 then Char.ofNat (c.toNat + 32) else c

/-- Model of `s.toLowerCase()` on the strings this pipeline compares. -/
def lowerStr (s : String) : String := String.mk (s.data.map toLowerCh)

/-! ### The test-day folder matcher

Model of `segment.match(/^(\d{4}-\d{1,2}-\d{1,2})\s*[-_]\s*(.+)$/)`:
on success it returns (capture 1 = the date, capture 2 = the venue).
The two-digit alternatives of `\d{1,2}` are tried greedily with backtracking,
exactly as the JS regex engine does. -/

/-- `\d{1,2}`: the candidate (consumed, remaining) splits in greedy order. -/
def digits12 (l : List Char) : List (List Char × List Char) :=
  match l with
  | a :: b :: rest =>
      if isDigitCh a && isDigitCh b then [([a, b], rest), ([a], b :: rest)]
      else if isDigitCh a then [([a], b :: rest)]
      else []
  | [a] => if isDigitCh a then [([a], [])] else []
  | [] => []

/-- The number of whitespace characters the second `\s*` of the regex
consumes: the engine backtracks one whitespace character when `.+` would
otherwise be empty. -/
def wsConsumed (rest : List Char) : Nat :=
  min ((rest.takeWhile fun c => isWsCh c).length) (rest.length - 1)

/-- `\s*[-_]\s*(.+)$` applied to the tail after the date.  The first `\s*` is
an exact greedy skip (no whitespace character is `-` or `_`); for the second,
the venue is the remainder after `wsConsumed` characters, required to
consist of `.`-matchable characters. -/
def matchSepVenue (l : List Char) : Option (List Char) :=
  match l.dropWhile (fun c => isWsCh c) with
  | c :: rest =>
      if c = '-' || c = '_' then
        if rest.isEmpty then none
        else
          if (rest.drop (wsConsumed rest)).all (fun c => isDotCh c) then
            some (rest.drop (wsConsumed rest))
          else none
      else none
  | [] => none

/-- The day digits followed by the separator-and-venue tail. -/
def matchDayTail (pre : List Char) (l : List Char) : Option (List Char × List Char) :=
  (digits12 l).findSome? fun p =>
    (matchSepVenue p.2).map fun v => (pre ++ p.1, v)

/-- The whole regex on a list of characters. -/
def matchTestDayChars (l : List Char) : Option (List Char × List Char) :=
  match l with
  | a :: b :: c :: d :: e :: rest =>
      if isDigitCh a && isDigitCh b && isDigitCh c && isDigitCh d && (e = '-') then
        (digits12 rest).findSome? fun p =>
          match p.2 with
          | f :: rest2 =>
              if f = '-' then
                matchDayTail ([a, b, c, d, '-'] ++ p.1 ++ ['-']) rest2
              else none
          | [] => none
      else none
  | _ => none

/-- Model of the test-day folder name matcher used at part_006 lines 93 and 114. -/
def matchTestDayFolder (s : String) : Option (String × String) :=
  (matchTestDayChars s.data).map fun p => (String.mk p.1, String.mk p.2)

/-! ### String helpers used by the scanner -/

/-- Model of JS `path.split('/')` (the separator is a single character). -/
def splitSegs : List Char → List (List Char)
  | [] => [[]]
  | c :: rest =>
    match splitSegs rest with
    | [] => [[]]
    | s :: ss => if c = '/' then [] :: s :: ss else (c :: s) :: ss

/-- The path segments of `file.webkitRelativePath`. -/
def pathParts (p : String) : List String := (splitSegs p.data).map fun l => String.mk l

/-- Model of JS `s.split(sep)` for a non-empty separator string: leftmost,
non-overlapping occurrences.  The fuel argument makes the recursion
structural; it is always called with more fuel than characters. -/
def splitSepCore (sep : List Char) : Nat → List Char → List Char → List (List Char)
  | 0, l, acc => [acc.reverse ++ l]
  | _ + 1, [], acc => [acc.reverse]
  | n + 1, c :: rest, acc =>
      if sep.isPrefixOf (c :: rest) then
        acc.reverse :: splitSepCore sep n ((c :: rest).drop sep.length) []
      else
        splitSepCore sep n rest (c :: acc)

/-- Model of JS `s.split(sep)` for a non-empty separator. -/
def splitJs (sep : String) (s : String) : List String :=
  (splitSepCore sep.data (s.data.length + 1) s.data []).map fun l => String.mk l

/-- Model of JS `a.endsWith(b)`. -/
def endsWithJs (s suffixStr : String) : Bool := suffixStr.data.isSuffixOf s.data

/-- `sub` occurs as a contiguous run inside `l`. -/
def containsSub (sub : List Char) : List Char → Bool
  | [] => sub.isEmpty
  | c :: rest => sub.isPrefixOf (c :: rest) || containsSub sub rest

/-- Model of JS `a.includes(b)`. -/
def includesJs (s sub : String) : Bool := containsSub sub.data s.data

/-! ### File entries and the scanner

A `FileEntry` models one element of the host enumeration (`FileList`): the
`webkitRelativePath`, the byte size, the modification time, and — for the
JSON setup files whose text the importer later reads and parses — the
outcome of `JSON.parse` on the file's content (`none` models invalid JSON;
`JSON.parse` and the file read are host capabilities, modelled abstractly).
Per the File API, `file.name` is the final segment of the relative path. -/

/-- The two fields of a parsed setup JSON document that the import logic
inspects (`setupData.id` and `setupData.name`); `none` means the field is
absent from the document. -/
structure SetupDoc where
  id : Option String
  name : Option String
deriving DecidableEq, Repr

structure FileEntry where
  relativePath : String
  size : Nat
  lastModified : Int
  content : Option SetupDoc
deriving DecidableEq, Repr

/-- JS `file.name`: the basename of the relative path. -/
def fileName (f : FileEntry) : String := (pathParts f.relativePath).getLastD ""

/-- Interface `XRKFile` of part_006. -/
structure XRKFile where
  name : String
  size : Nat
  lastModified : Int
  path : String
deriving DecidableEq, Repr

/-- Interface `TestDayFolder` of part_006. -/
structure TestDayFolder where
  name : String
  path : String
  xrkFiles : List XRKFile
deriving DecidableEq, Repr

/-- The state produced by `scanForTestDayFolders`: the `testDayFolders` and
`globalSetupFiles` arrays it stores. -/
structure ScanResult where
  testDayFolders : List TestDayFolder
  globalSetupFiles : List FileEntry
deriving DecidableEq, Repr

/-- Part_006 line 85: the global-setup candidate test
(`relPath.toLowerCase().includes('/setups/') || pathParts[0].toLowerCase() === 'setups'`),
then line 86: `file.name.toLowerCase().endsWith('.json')`; both inside the
`pathParts.length >= 2` branch. -/
def isGlobalSetupCandidate (f : FileEntry) : Bool :=
  let parts := pathParts f.relativePath
  decide (parts.length ≥ 2) &&
  (includesJs (lowerStr f.relativePath) "/setups/" || lowerStr (parts.headD "") == "setups") &&
  endsWithJs (lowerStr (fileName f)) ".json"

/-- Part_006 lines 91-98: the first path segment before the filename that
matches the test-day pattern owns the file. -/
def owningTestDayFolder (parts : List String) : Option String :=
  parts.dropLast.find? fun seg => (matchTestDayFolder seg).isSome

/-- True when the file is grouped under owning segment `k` by the scan. -/
def ownedBy (f : FileEntry) (k : String) : Bool :=
  let parts := pathParts f.relativePath
  decide (parts.length ≥ 2) && (owningTestDayFolder parts == some k)

/-- Appending a file to its group in the insertion-ordered directory map
(JS `Map` iteration follows key insertion order). -/
def insertGroup (m : List (String × List FileEntry)) (k : String) (f : FileEntry) :
    List (String × List FileEntry) :=
  match m with
  | [] => [(k, [f])]
  | (k', fs) :: rest =>
      if k' = k then (k', fs ++ [f]) :: rest else (k', fs) :: insertGroup rest k f

/-- One iteration of the grouping loop of part_006 lines 80-107: a file with
at least two path segments and an owning test-day segment joins that
segment's group; every other file is ignored. -/
def scanStep (m : List (String × List FileEntry)) (f : FileEntry) :
    List (String × List FileEntry) :=
  if (pathParts f.relativePath).length ≥ 2 then
    match owningTestDayFolder (pathParts f.relativePath) with
    | some k => insertGroup m k f
    | none => m
  else m

/-- Part_006 lines 80-107: group the files by their owning test-day segment. -/
def directoryMap (files : List FileEntry) : List (String × List FileEntry) :=
  files.foldl scanStep []

/-- Association lookup in the directory map. -/
def findGroup : List (String × List FileEntry) → String → Option (List FileEntry)
  | [], _ => none
  | (k2, fs) :: rest, k => if k2 = k then some fs else findGroup rest k

/-- The keys of the directory map. -/
def groupKeys (m : List (String × List FileEntry)) : List String := m.map Prod.fst

/-- The `.xrk` filename test of part_006 line 125. -/
def isXrkName (f : FileEntry) : Bool := endsWithJs (lowerStr (fileName f)) ".xrk"

/-- The `testday.json` marker test of part_006 line 133 (reached only when the
filename does not end in `.xrk`, mirroring the `else if`). -/
def isTestDayJsonName (f : FileEntry) : Bool := lowerStr (fileName f) == "testday.json"

/-- Part_006 lines 113-147: one pass over a group; the folder is materialized
only when it has `.xrk` files or the `testday.json` marker. -/
def buildTestDayFolder (nm : String) (fs : List FileEntry) : Option TestDayFolder :=
  if (matchTestDayFolder nm).isSome then
    let xrks := (fs.filter fun f => isXrkName f).map fun f =>
      { name := fileName f, size := f.size, lastModified := f.lastModified,
        path := f.relativePath : XRKFile }
    let hasTestDayJson := fs.any fun f => !isXrkName f && isTestDayJsonName f
    if xrks.length > 0 || hasTestDayJson then
      some { name := nm, path := nm, xrkFiles := xrks }
    else none
  else none

/-- Part_006 lines 67-164 (the pure classification core of
`scanForTestDayFolders`). -/
def scanForTestDayFolders (files : List FileEntry) : ScanResult :=
  { testDayFolders := (directoryMap files).filterMap fun p => buildTestDayFolder p.1 p.2
    globalSetupFiles := files.filter fun f => isGlobalSetupCandidate f }

/-! ### The records sent to the dashboard

These mirror the object literals built by `importTestDayData` and
`importGlobalSetups` and the fields of the dashboard types that the merge
reads (`Run`, `TestDay`, `SetupSnapshot`, `TireSet`; merging keys on `id`). -/

structure Run where
  id : String
  testDayId : String
  runNumber : Nat
  timestamp : String
  track : String
  drivers : List String
  notes : String
  tags : List String
deriving DecidableEq, Repr

structure TestDay where
  id : String
  date : String
  track : String
  runs : Nat
deriving DecidableEq, Repr

/-- A setup snapshot as built by `importGlobalSetups` (id, name, timestamp,
plus the spread of the parsed document). -/
structure SetupRec where
  id : String
  name : String
  timestamp : String
  doc : SetupDoc
deriving DecidableEq, Repr

structure TireSet where
  id : String
  compound : String
  size : String
  notes : String
deriving DecidableEq, Repr

/-- The object passed to `onDataImported`. -/
structure ImportedData where
  testDays : List TestDay
  runs : List Run
  setups : List SetupRec
  tireSets : List TireSet
deriving DecidableEq, Repr

/-! ### importTestDayData (part_006 lines 273-318)

The component keeps a session-level `importedRunPathsRef : Set<string>`;
it is modelled as a duplicate-free list threaded through the import.  The
wall clock read by `new Date().toISOString()` is the explicit `now`
argument. -/

/-- `Set.add`: membership-preserving insertion. -/
def addPath (s : List String) (p : String) : List String :=
  if p ∈ s then s else s ++ [p]

/-- `Array.prototype.map((file, index) => ...)` with an explicit start index. -/
def mapWithIndex (g : Nat → XRKFile → Run) : Nat → List XRKFile → List Run
  | _, [] => []
  | i, a :: as => g i a :: mapWithIndex g (i + 1) as

/-- `testDay.name.split(' - ')[1] || 'Unknown'`. -/
def trackFromName (nm : String) : String :=
  match (splitJs " - " nm).get? 1 with
  | some v => if v = "" then "Unknown" else v
  | none => "Unknown"

/-- The run object literal of part_006 lines 281-290. -/
def mkLocalRun (tdName : String) (now : String) (index : Nat) (file : XRKFile) : Run :=
  { id := "local-" ++ tdName ++ "-" ++ toString (index + 1)
    testDayId := "local-" ++ tdName
    runNumber := index + 1
    timestamp := now
    track := trackFromName tdName
    drivers := ["Unknown"]
    notes := "Imported from " ++ file.name
    tags := ["imported", "xrk"] }

/-- Part_006 lines 274-311: filter out already-imported paths, number the
remaining files from 1, then mark the first `newRuns.length` entries of the
(unfiltered) `testDay.xrkFiles` as imported — exactly as the source does
(`newRuns.forEach((_, idx) => { const f = testDay.xrkFiles[idx]; ... })`).
Returns the payload handed to `onDataImported` and the updated path set. -/
def importTestDayData (importedRunPaths : List String) (testDay : TestDayFolder)
    (now : String) : ImportedData × List String :=
  let newRuns := mapWithIndex (fun i f => mkLocalRun testDay.name now i f) 0
    (testDay.xrkFiles.filter fun f => !(importedRunPaths.contains f.path))
  let marked := (testDay.xrkFiles.take newRuns.length).foldl
    (fun s f => addPath s f.path) importedRunPaths
  ({ testDays := [{ id := "local-" ++ testDay.name
                    date := (splitJs " - " testDay.name).headD ""
                    track := trackFromName testDay.name
                    runs := newRuns.length }]
     runs := newRuns
     setups := []
     tireSets := [] }, marked)

/-! ### importGlobalSetups (part_006 lines 320-349) -/

/-- `file.name.replace(/\.json$/i, '')`. -/
def stripJsonExt (nm : String) : String :=
  if endsWithJs (lowerStr nm) ".json" then
    String.mk (nm.data.take (nm.data.length - 5))
  else nm

/-- The setup object literal of part_006 lines 330-335.  The trailing
`...setupData` spread re-applies the document's own `id`/`name` fields, so a
present field always wins over the `||` fallback, even when it is falsy. -/
def mkSetupRec (nm : String) (now : String) (doc : SetupDoc) : SetupRec :=
  { id := match doc.id with
          | some s => s
          | none => "setup-" ++ stripJsonExt nm
    name := match doc.name with
            | some s => s
            | none => stripJsonExt nm
    timestamp := now
    doc := doc }

/-- The per-file loop of `importGlobalSetups`, threading the session-level
`importedSetupNamesRef` set.  A file whose basename is already in the set is
skipped silently; a file whose content fails `JSON.parse` produces a
diagnostic (the `console.warn` with the file name) and does not stop the
loop; a parsed file appends one setup record and marks its name. -/
def importGlobalSetupsGo (now : String) :
    List String → List FileEntry → List SetupRec × List String × List String
  | names, [] => ([], [], names)
  | names, f :: rest =>
      let nm := fileName f
      if names.contains nm then importGlobalSetupsGo now names rest
      else
        match f.content with
        | some doc =>
            let r := importGlobalSetupsGo now (addPath names nm) rest
            (mkSetupRec nm now doc :: r.1, r.2.1, r.2.2)
        | none =>
            let r := importGlobalSetupsGo now names rest
            (r.1, nm :: r.2.1, r.2.2)

/-- Part_006 lines 320-349: returns (imported setups, skipped-file
diagnostics, updated imported-name set). -/
def importGlobalSetups (importedSetupNames : List String) (files : List FileEntry)
    (now : String) : List SetupRec × List String × List String :=
  importGlobalSetupsGo now importedSetupNames files

/-! ### The Merge Engine: handleDataImported
(UTFRDataDashboard.tsx lines 470-512) -/

structure Dataset where
  days : List TestDay
  runs : List Run
  setups : List SetupRec
  tires : List TireSet
deriving DecidableEq, Repr

/-- One collection's merge: `setX(prev => ...)` builds the set of existing
ids and appends the batch records whose id is not among them; the
surrounding `if (importedData.X && importedData.X.length > 0)` skips the
update for an empty batch. -/
def mergeColl {α : Type} (key : α → String) (prev incoming : List α) : List α :=
  if incoming.length > 0 then
    prev ++ incoming.filter fun r => !(prev.any fun p => key p == key r)
  else prev

/-- UTFRDataDashboard.tsx lines 470-512 (`handleDataImported`). -/
def handleDataImported (ds : Dataset) (b : ImportedData) : Dataset :=
  { days := mergeColl TestDay.id ds.days b.testDays
    runs := mergeColl Run.id ds.runs b.runs
    setups := mergeColl SetupRec.id ds.setups b.setups
    tires := mergeColl TireSet.id ds.tires b.tireSets }

/-! ### The scan-and-import pipeline

`Import All` (part_006 line 588) runs `importTestDayData` over every scanned
folder, threading the session path set; live sync re-runs scan plus import. -/

def scanAndImportAll (importedRunPaths : List String) (files : List FileEntry)
    (now : String) : List ImportedData × List String :=
  (scanForTestDayFolders files).testDayFolders.foldl
    (fun acc td =>
      let r := importTestDayData acc.2 td now
      (acc.1 ++ [r.1], r.2))
    ([], importedRunPaths)

/-! ### Concrete scenario fixtures -/

/-- A telemetry file entry with no JSON content. -/
def telemFile (p : String) (sz : Nat) (lm : Int) : FileEntry :=
  { relativePath := p, size := sz, lastModified := lm, content := none }

/-- The Villa folder as first enumerated: two telemetry files. -/
def villaFiles1 : List FileEntry :=
  [telemFile "2025-4-11 - Villa/datadump/run1.xrk" 10 100,
   telemFile "2025-4-11 - Villa/datadump/run2.xrk" 20 200]

/-- The Villa folder re-enumerated after two new telemetry files were added. -/
def villaFiles2 : List FileEntry :=
  villaFiles1 ++
  [telemFile "2025-4-11 - Villa/datadump/run3.xrk" 30 300,
   telemFile "2025-4-11 - Villa/datadump/run4.xrk" 40 400]

def emptyTestDayFolder : TestDayFolder := { name := "", path := "", xrkFiles := [] }

/-- The scanned Villa test-day folder before the new files. -/
def villaTd1 : TestDayFolder :=
  (scanForTestDayFolders villaFiles1).testDayFolders.headD emptyTestDayFolder

/-- The scanned Villa test-day folder after the new files. -/
def villaTd2 : TestDayFolder :=
  (scanForTestDayFolders villaFiles2).testDayFolders.headD emptyTestDayFolder

/-- The dashboard dataset before any import. -/
def emptyDataset : Dataset := { days := [], runs := [], setups := [], tires := [] }

/-- State after the first import of the Villa folder: the session path set
and the dataset. -/
def villaImport1 : ImportedData × List String := importTestDayData [] villaTd1 "t1"

def villaDs1 : Dataset := handleDataImported emptyDataset villaImport1.1

/-- The re-import of the same folder after the two new files appeared. -/
def villaImport2 : ImportedData × List String :=
  importTestDayData villaImport1.2 villaTd2 "t2"

def villaDs2 : Dataset := handleDataImported villaDs1 villaImport2.1

/-- A run record already in the dashboard. -/
def heldRun : Run :=
  { id := "local-2025-4-11 - Villa-1", testDayId := "local-2025-4-11 - Villa"
    runNumber := 1, timestamp := "t0", track := "Villa", drivers := ["Unknown"]
    notes := "Imported from run1.xrk", tags := ["imported", "xrk"] }

/-- A batch run whose id collides with `heldRun` but whose content differs. -/
def clashRun : Run := { heldRun with timestamp := "t9", notes := "changed" }

/-- A batch run with a fresh id. -/
def freshRun : Run := { heldRun with id := "local-2025-4-11 - Villa-2", runNumber := 2 }

def c7Ds : Dataset := { days := [], runs := [heldRun], setups := [], tires := [] }

def c7Batch : ImportedData := { testDays := [], runs := [clashRun, freshRun], setups := [], tireSets := [] }

/-- Two distinct batch runs sharing one id. -/
def dupRunA : Run := { heldRun with id := "x", notes := "first copy" }

def dupRunB : Run := { heldRun with id := "x", notes := "second copy" }

def c8Batch : ImportedData := { testDays := [], runs := [dupRunA, dupRunB], setups := [], tireSets := [] }

/-- A setup JSON file entry under the reserved `Setups` directory. -/
def setupFile (p : String) (d : Option SetupDoc) : FileEntry :=
  { relativePath := p, size := 1, lastModified := 0, content := d }

/-- Two valid setup files in different subfolders sharing one basename. -/
def c9DupFiles : List FileEntry :=
  [setupFile "Setups/a/X.json" (some { id := none, name := some "A" }),
   setupFile "Setups/b/X.json" (some { id := none, name := some "B" })]

/-- Nine parsable setup files and one with invalid JSON. -/
def c9TenFiles : List FileEntry :=
  [setupFile "Setups/s1.json" (some { id := none, name := some "S1" }),
   setupFile "Setups/s2.json" (some { id := none, name := some "S2" }),
   setupFile "Setups/s3.json" (some { id := none, name := some "S3" }),
   setupFile "Setups/s4.json" (some { id := none, name := some "S4" }),
   setupFile "Setups/s5.json" (some { id := none, name := some "S5" }),
   setupFile "Setups/s6.json" (some { id := none, name := some "S6" }),
   setupFile "Setups/bad.json" none,
   setupFile "Setups/s8.json" (some { id := none, name := some "S8" }),
   setupFile "Setups/s9.json" (some { id := none, name := some "S9" }),
   setupFile "Setups/s10.json" (some { id := none, name := some "S10" })]

/-- The Villa folder as scanned later: same paths, different sizes and
modification times. -/
def villaTdChurn : TestDayFolder :=
  { name := "2025-4-11 - Villa", path := "2025-4-11 - Villa"
    xrkFiles :=
      [{ name := "run1.xrk", size := 999, lastModified := 111,
         path := "2025-4-11 - Villa/datadump/run1.xrk" },
       { name := "run2.xrk", size := 888, lastModified := 222,
         path := "2025-4-11 - Villa/datadump/run2.xrk" }] }

/-- Whitespace trimming at both ends (JS `trim` over the `\s` class). -/
def trimWs (l : List Char) : List Char :=
  ((l.dropWhile fun c => isWsCh c).reverse.dropWhile fun c => isWsCh c).reverse

def isSepCh (c : Char) : Bool := c = '-' || c = '_'

/-- The separator block and venue of the spec's pattern: one or more `-` or
`_` separators optionally surrounded by whitespace, then a non-empty trimmed
venue. -/
def specAfterDay (datePre : List Char) (l : List Char) : Option (String × String) :=
  let t1 := l.dropWhile fun c => isWsCh c
  let block := t1.takeWhile fun c => isSepCh c || isWsCh c
  let venue := trimWs (t1.dropWhile fun c => isSepCh c || isWsCh c)
  if (block.any fun c => isSepCh c) && !venue.isEmpty then
    some (String.mk datePre, String.mk venue)
  else none

/-- Modelled from the spec: claim C6's description of the test-day pattern —
optional leading and trailing whitespace, a 4-digit year, `-`, a 1-2 digit
month, `-`, a 1-2 digit day, one or more `-`/`_` separators optionally
surrounded by whitespace, then a non-empty trimmed venue.  This is the
comparison definition for the refinement claim; `matchTestDayFolder` is the
code's actual matcher. -/
def specTestDayPattern (s : String) : Option (String × String) :=
  match trimWs s.data with
  | a :: b :: c :: d :: e :: rest =>
      if isDigitCh a && isDigitCh b && isDigitCh c && isDigitCh d && (e = '-') then
        (digits12 rest).findSome? fun m =>
          match m.2 with
          | f :: rest2 =>
              if f = '-' then
                (digits12 rest2).findSome? fun dd =>
                  specAfterDay ([a, b, c, d, '-'] ++ m.1 ++ ['-'] ++ dd.1) dd.2
              else none
          | [] => none
      else none
  | _ => none

/-- The claim's notion "a TestDayFolder is emitted for folder segment
`seg`". -/
def emitsTestDay (files : List FileEntry) (seg : String) : Bool :=
  (scanForTestDayFolders files).testDayFolders.any fun td => td.name == seg

/-- The claim's notion "the file lies below the segment": the segment occurs
among the file's ancestor path segments. -/
def belowSeg (f : FileEntry) (seg : String) : Bool :=
  (pathParts f.relativePath).dropLast.contains seg

/-- A telemetry file inside a pattern-matching folder nested beneath another
pattern-matching folder. -/
def nestedFiles : List FileEntry :=
  [telemFile "2025-1-1 - A/2025-2-2 - B/run1.xrk" 1 0]

/-- The Villa files with the same paths but churned sizes and modification
times. -/
def villaFiles1Churn : List FileEntry :=
  [telemFile "2025-4-11 - Villa/datadump/run1.xrk" 77 7,
   telemFile "2025-4-11 - Villa/datadump/run2.xrk" 88 8]

/-- C1: re-importing the Villa folder after adding two new telemetry files
must add exactly two new run records.  The code filters exactly the two new
files into the batch, but numbers them from 1 again, so their ids
`local-2025-4-11 - Villa-1` and `...-2` collide with the ids of the runs imported
first; the receiver's id-dedup drops both and the dataset is completely
unchanged: zero new run records are added. -/
theorem C1_reimport_adds_no_runs :
    villaImport2.1.runs.length = 2 ∧
    villaDs1.runs.length = 2 ∧
    villaDs2 = villaDs1 := by
  refine ⟨by decide, by decide, by decide⟩

/-! ### Merge Engine lemmas -/

lemma mergeColl_self {α : Type} (key : α → String) (prev inc : List α) :
    mergeColl key (mergeColl key prev inc) inc = mergeColl key prev inc := by
  unfold mergeColl
  by_cases h : inc.length > 0
  · simp only [if_pos h]
    have hnil : (inc.filter fun r =>
        !((prev ++ inc.filter fun r => !(prev.any fun p => key p == key r)).any
            fun p => key p == key r)) = [] := by
      rw [List.filter_eq_nil_iff]
      intro a ha
      simp only [Bool.not_eq_true, Bool.not_eq_false, List.any_append]
      by_cases hpa : (prev.any fun p => key p == key a) = true
      · simp [hpa]
      · have : a ∈ inc.filter fun r => !(prev.any fun p => key p == key r) := by
          rw [List.mem_filter]
          exact ⟨ha, by simp [hpa]⟩
        have : ((inc.filter fun r => !(prev.any fun p => key p == key r)).any
            fun p => key p == key a) = true := by
          rw [List.any_eq_true]
          exact ⟨a, this, beq_self_eq_true _⟩
        simp [this]
    rw [hnil, List.append_nil]
  · simp only [if_neg h]

/-- C3: the Merge Engine is idempotent — applying the same import batch a
second time leaves the dataset unchanged. -/
theorem C3_merge_idempotent (ds : Dataset) (b : ImportedData) :
    handleDataImported (handleDataImported ds b) b = handleDataImported ds b := by
  simp only [handleDataImported, Dataset.mk.injEq]
  exact ⟨mergeColl_self _ _ _, mergeColl_self _ _ _, mergeColl_self _ _ _,
    mergeColl_self _ _ _⟩

lemma mergeColl_take {α : Type} (key : α → String) (prev inc : List α) :
    (mergeColl key prev inc).take prev.length = prev := by
  unfold mergeColl
  split
  · exact List.take_left prev _
  · exact List.take_length prev

lemma mergeColl_drop_mem {α : Type} (key : α → String) (prev inc : List α) {q : α}
    (hq : q ∈ (mergeColl key prev inc).drop prev.length) :
    q ∈ inc ∧ ∀ p ∈ prev, key p ≠ key q := by
  unfold mergeColl at hq
  split at hq
  · rw [List.drop_left] at hq
    have h := List.mem_filter.mp hq
    refine ⟨h.1, ?_⟩
    intro p hp hpq
    have hany : (prev.any fun p => key p == key q) = true :=
      List.any_eq_true.mpr ⟨p, hp, by simp [hpq]⟩
    rw [hany] at h
    simp at h
  · rw [List.drop_length] at hq
    cases hq

/-- C7: merge never loses or alters existing records.  Each of the four
collections of `merge(existing, batch)` starts with the existing records,
unchanged and in order; every record beyond them comes from the batch and
its key differs from every existing key — so on a key conflict the existing
record wins and the batch record is dropped.  (The model is a pure function
of `(existing, batch)`, mirroring that the source builds new arrays with
spread and never mutates `existing` in place.) -/
theorem C7_merge_preserves_existing (ds : Dataset) (b : ImportedData) :
    ((handleDataImported ds b).days.take ds.days.length = ds.days ∧
      ∀ q ∈ (handleDataImported ds b).days.drop ds.days.length,
        q ∈ b.testDays ∧ ∀ p ∈ ds.days, p.id ≠ q.id) ∧
    ((handleDataImported ds b).runs.take ds.runs.length = ds.runs ∧
      ∀ q ∈ (handleDataImported ds b).runs.drop ds.runs.length,
        q ∈ b.runs ∧ ∀ p ∈ ds.runs, p.id ≠ q.id) ∧
    ((handleDataImported ds b).setups.take ds.setups.length = ds.setups ∧
      ∀ q ∈ (handleDataImported ds b).setups.drop ds.setups.length,
        q ∈ b.setups ∧ ∀ p ∈ ds.setups, p.id ≠ q.id) ∧
    ((handleDataImported ds b).tires.take ds.tires.length = ds.tires ∧
      ∀ q ∈ (handleDataImported ds b).tires.drop ds.tires.length,
        q ∈ b.tireSets ∧ ∀ p ∈ ds.tires, p.id ≠ q.id) := by
  simp only [handleDataImported]
  exact ⟨⟨mergeColl_take _ _ _, fun q hq => mergeColl_drop_mem _ _ _ hq⟩,
    ⟨mergeColl_take _ _ _, fun q hq => mergeColl_drop_mem _ _ _ hq⟩,
    ⟨mergeColl_take _ _ _, fun q hq => mergeColl_drop_mem _ _ _ hq⟩,
    ⟨mergeColl_take _ _ _, fun q hq => mergeColl_drop_mem _ _ _ hq⟩⟩


theorem C7_merge_preserves_existing_witness :
    (handleDataImported c7Ds c7Batch).runs.take 1 = c7Ds.runs ∧
    heldRun.id ≠ freshRun.id := by
  have h := C7_merge_preserves_existing c7Ds c7Batch
  exact ⟨h.2.1.1, (h.2.1.2 freshRun (by decide)).2 heldRun (by decide)⟩


/-- C8 counterexample: the claim quantifies over every import batch, but the
merge only filters batch records against the existing ids, not against each
other; a batch holding two distinct records with the same key pushes both
into the dataset, so key-uniqueness is not preserved. -/
theorem C8_counterexample :
    (emptyDataset.runs.map Run.id).Nodup ∧
    ¬ ((handleDataImported emptyDataset c8Batch).runs.map Run.id).Nodup := by
  refine ⟨by decide, by decide⟩

lemma mergeColl_nodup {α : Type} (key : α → String) (prev inc : List α)
    (hp : (prev.map key).Nodup) (hi : (inc.map key).Nodup) :
    ((mergeColl key prev inc).map key).Nodup := by
  unfold mergeColl
  split
  · rw [List.map_append, List.nodup_append]
    refine ⟨hp, hi.sublist (List.Sublist.map _ (List.filter_sublist _)), ?_⟩
    intro a ha hb
    rcases List.mem_map.mp hb with ⟨r, hr, hra⟩
    rcases List.mem_filter.mp hr with ⟨-, hcond⟩
    rcases List.mem_map.mp ha with ⟨p, hpmem, hpa⟩
    have hany : (prev.any fun p => key p == key r) = true :=
      List.any_eq_true.mpr ⟨p, hpmem, by rw [hpa, hra]; exact beq_self_eq_true _⟩
    rw [hany] at hcond
    cases hcond
  · exact hp

/-- C8 amended: merge preserves key-uniqueness provided the batch itself has
pairwise-distinct keys in each collection (true of any single
`importTestDayData` payload, whose ids are numbered consecutively, but not
of arbitrary batches). -/
theorem C8_amended (ds : Dataset) (b : ImportedData)
    (hd : (ds.days.map TestDay.id).Nodup) (hr : (ds.runs.map Run.id).Nodup)
    (hs : (ds.setups.map SetupRec.id).Nodup) (ht : (ds.tires.map TireSet.id).Nodup)
    (hbd : (b.testDays.map TestDay.id).Nodup) (hbr : (b.runs.map Run.id).Nodup)
    (hbs : (b.setups.map SetupRec.id).Nodup) (hbt : (b.tireSets.map TireSet.id).Nodup) :
    ((handleDataImported ds b).days.map TestDay.id).Nodup ∧
    ((handleDataImported ds b).runs.map Run.id).Nodup ∧
    ((handleDataImported ds b).setups.map SetupRec.id).Nodup ∧
    ((handleDataImported ds b).tires.map TireSet.id).Nodup := by
  simp only [handleDataImported]
  exact ⟨mergeColl_nodup _ _ _ hd hbd, mergeColl_nodup _ _ _ hr hbr,
    mergeColl_nodup _ _ _ hs hbs, mergeColl_nodup _ _ _ ht hbt⟩

theorem C8_amended_witness :
    ((handleDataImported emptyDataset villaImport1.1).runs.map Run.id).Nodup := by
  have h := C8_amended emptyDataset villaImport1.1 (by decide) (by decide) (by decide)
    (by decide) (by decide) (by decide) (by decide) (by decide)
  exact h.2.1

/-! ### Setup-import lemmas -/

lemma mem_addPath {s : List String} {p x : String} :
    x ∈ addPath s p ↔ x ∈ s ∨ x = p := by
  unfold addPath
  split
  · rename_i h
    constructor
    · exact fun hx => Or.inl hx
    · rintro (hx | rfl)
      · exact hx
      · exact h
  · simp [List.mem_append]

lemma contains_eq_false_of_not_mem {l : List String} {a : String} (h : a ∉ l) :
    l.contains a = false := by
  by_contra hc
  exact h (List.elem_iff.mp (eq_true_of_ne_false hc))


/-- C9 counterexample: both files parse successfully, but the importer keys
its skip-set by basename, so the second `X.json` is skipped silently —
one record is produced for two successfully parsing files, refuting "one
SetupRecord for each file that parses successfully". -/
theorem C9_counterexample :
    (c9DupFiles.filter fun f => f.content.isSome).length = 2 ∧
    (importGlobalSetups [] c9DupFiles "t").1.length = 1 ∧
    (importGlobalSetups [] c9DupFiles "t").2.1.length = 0 := by
  refine ⟨by decide, by decide, by decide⟩

/-- C9 amended: when the batch's basenames are pairwise distinct and none
was imported earlier in the session, the importer returns exactly one setup
record per file that parses and one diagnostic per file that does not, and
always returns (it never aborts: the function is total and processes every
file). -/
theorem C9_amended (st : List String) (files : List FileEntry) (now : String)
    (hnodup : (files.map fileName).Nodup)
    (hfresh : ∀ f ∈ files, fileName f ∉ st) :
    (importGlobalSetups st files now).1.length =
      (files.filter fun f => f.content.isSome).length ∧
    (importGlobalSetups st files now).2.1.length =
      (files.filter fun f => f.content.isNone).length := by
  unfold importGlobalSetups
  induction files generalizing st with
  | nil => simp [importGlobalSetupsGo]
  | cons f rest ih =>
    have hne : st.contains (fileName f) = false :=
      contains_eq_false_of_not_mem (hfresh f (List.mem_cons_self f rest))
    have hnodup' : (rest.map fileName).Nodup := (List.nodup_cons.mp hnodup).2
    have hhead : fileName f ∉ rest.map fileName := (List.nodup_cons.mp hnodup).1
    cases hcont : f.content with
    | some doc =>
      have hfresh' : ∀ g ∈ rest, fileName g ∉ addPath st (fileName f) := by
        intro g hg hgmem
        rcases mem_addPath.mp hgmem with hgs | hgeq
        · exact hfresh g (List.mem_cons_of_mem f hg) hgs
        · exact hhead (hgeq ▸ List.mem_map_of_mem fileName hg)
      have h := ih (addPath st (fileName f)) hnodup' hfresh'
      simp only [importGlobalSetupsGo, hne, hcont, Bool.false_eq_true, if_false,
        List.filter_cons, Option.isSome_some, Option.isNone_some]
      simp only [List.length_cons, h.1, h.2, and_true, true_and]
      simp
    | none =>
      have hfresh' : ∀ g ∈ rest, fileName g ∉ st :=
        fun g hg => hfresh g (List.mem_cons_of_mem f hg)
      have h := ih st hnodup' hfresh'
      simp only [importGlobalSetupsGo, hne, hcont, Bool.false_eq_true, if_false,
        List.filter_cons, Option.isSome_none, Option.isNone_none]
      simp only [List.length_cons, h.1, h.2, and_true, true_and]
      simp


theorem C9_amended_witness :
    (importGlobalSetups [] c9TenFiles "t").1.length = 9 ∧
    (importGlobalSetups [] c9TenFiles "t").2.1.length = 1 := by
  have h := C9_amended [] c9TenFiles "t" (by decide) (by decide)
  exact ⟨h.1.trans (by decide), h.2.trans (by decide)⟩

/-! ### Run-id lemmas -/

/-- C2 counterexample: the run records synthesized for the Villa files carry
position-based ids, not the files' relative paths; no field of the run
record holds the relative path, and the receiver's dedup key (`id`) differs
from it. -/
theorem C2_counterexample :
    villaImport1.1.runs.map Run.id ≠ villaFiles1.map FileEntry.relativePath ∧
    villaImport1.1.runs.map Run.id =
      ["local-2025-4-11 - Villa-1", "local-2025-4-11 - Villa-2"] := by
  refine ⟨by decide, by decide⟩

lemma mapWithIndex_map_id_congr (tdn now1 now2 : String) :
    ∀ (i : Nat) (l1 l2 : List XRKFile), l1.length = l2.length →
    (mapWithIndex (fun j f => mkLocalRun tdn now1 j f) i l1).map Run.id =
    (mapWithIndex (fun j f => mkLocalRun tdn now2 j f) i l2).map Run.id := by
  intro i l1
  induction l1 generalizing i with
  | nil =>
    intro l2 h
    cases l2
    · simp [mapWithIndex]
    · simp at h
  | cons a as ih =>
    intro l2 h
    cases l2 with
    | nil => simp at h
    | cons b bs =>
      simp only [mapWithIndex, List.map_cons, List.cons.injEq]
      exact ⟨rfl, ih (i + 1) bs (by simpa using h)⟩

lemma filter_fresh_length (st : List String) :
    ∀ (l1 l2 : List XRKFile), l1.map XRKFile.path = l2.map XRKFile.path →
    (l1.filter fun f => !(st.contains f.path)).length =
    (l2.filter fun f => !(st.contains f.path)).length := by
  intro l1
  induction l1 with
  | nil =>
    intro l2 h
    cases l2
    · rfl
    · simp at h
  | cons a as ih =>
    intro l2 h
    cases l2 with
    | nil => simp at h
    | cons b bs =>
      simp only [List.map_cons, List.cons.injEq] at h
      simp only [List.filter_cons, h.1]
      split
      · simp only [List.length_cons, ih bs h.2]
      · exact ih bs h.2

/-- C2 amended: run keys are deterministic but position-based.  Two imports
of folders that agree on the folder name and on the telemetry files'
relative paths produce run records with identical id lists, regardless of
file sizes, modification times, or the wall clock — the id is
`local-<folder>-<position>`, and path-based dedup happens only through the
separate session-level imported-path set, not through a field of the run
record. -/
theorem C2_amended (st : List String) (td1 td2 : TestDayFolder) (now1 now2 : String)
    (hname : td1.name = td2.name)
    (hpaths : td1.xrkFiles.map XRKFile.path = td2.xrkFiles.map XRKFile.path) :
    (importTestDayData st td1 now1).1.runs.map Run.id =
      (importTestDayData st td2 now2).1.runs.map Run.id := by
  unfold importTestDayData
  simp only
  rw [hname]
  exact mapWithIndex_map_id_congr td2.name now1 now2 0 _ _
    (filter_fresh_length st _ _ hpaths)


theorem C2_amended_witness :
    (importTestDayData [] villaTd1 "t1").1.runs.map Run.id =
      (importTestDayData [] villaTdChurn "t9").1.runs.map Run.id :=
  C2_amended [] villaTd1 villaTdChurn "t1" "t9" (by decide) (by decide)

lemma mapWithIndex_length (g : Nat → XRKFile → Run) :
    ∀ (i : Nat) (l : List XRKFile), (mapWithIndex g i l).length = l.length := by
  intro i l
  induction l generalizing i with
  | nil => rfl
  | cons a as ih => simp [mapWithIndex, ih]

lemma mapWithIndex_get (g : Nat → XRKFile → Run) :
    ∀ (l : List XRKFile) (i k : Nat) (h : k < (mapWithIndex g i l).length)
      (h2 : k < l.length),
      (mapWithIndex g i l).get ⟨k, h⟩ = g (i + k) (l.get ⟨k, h2⟩) := by
  intro l
  induction l with
  | nil => intro i k h h2; simp at h2
  | cons a as ih =>
    intro i k h h2
    cases k with
    | zero => simp [mapWithIndex]
    | succ k2 =>
      have hh : k2 < (mapWithIndex g (i + 1) as).length := by
        simpa [mapWithIndex] using h
      have hh2 : k2 < as.length := by simpa using h2
      have e1 : (mapWithIndex g i (a :: as)).get ⟨k2 + 1, h⟩ =
          (mapWithIndex g (i + 1) as).get ⟨k2, hh⟩ := rfl
      have e2 : (a :: as).get ⟨k2 + 1, h2⟩ = as.get ⟨k2, hh2⟩ := rfl
      rw [e1, e2, ih (i + 1) k2 hh hh2]
      have e3 : i + 1 + k2 = i + (k2 + 1) := by omega
      rw [e3]

/-- C10: the k-th telemetry file passing the not-yet-imported filter is
assigned `runNumber` k+1 (counting from 0 here) and id
`local-<folder>-<k+1>`: the id depends only on the folder name and the
position, not on the file.  Consequently, the second import of the Villa
folder hands out the very ids already given to the first import's runs,
although the batches stem from different source files. -/
theorem C10_position_based_run_ids :
    (∀ (st : List String) (td : TestDayFolder) (now : String) (k : Nat)
        (h : k < (importTestDayData st td now).1.runs.length),
        ((importTestDayData st td now).1.runs.get ⟨k, h⟩).runNumber = k + 1 ∧
        ((importTestDayData st td now).1.runs.get ⟨k, h⟩).id =
          "local-" ++ td.name ++ "-" ++ toString (k + 1)) ∧
    (villaImport1.1.runs.map Run.id = villaImport2.1.runs.map Run.id ∧
      villaImport1.1.runs.map Run.notes ≠ villaImport2.1.runs.map Run.notes) := by
  constructor
  · intro st td now k h
    have hlen : k < (td.xrkFiles.filter fun f => !(st.contains f.path)).length := by
      simpa [importTestDayData, mapWithIndex_length] using h
    have hget : (importTestDayData st td now).1.runs.get ⟨k, h⟩ =
        mkLocalRun td.name now (0 + k)
          ((td.xrkFiles.filter fun f => !(st.contains f.path)).get ⟨k, hlen⟩) :=
      mapWithIndex_get _ _ 0 k h hlen
    rw [hget]
    constructor
    · simp [mkLocalRun]
    · simp [mkLocalRun]
  · exact ⟨by decide, by decide⟩

theorem C10_position_based_run_ids_witness :
    ((importTestDayData [] villaTd1 "t1").1.runs.get ⟨0, by decide⟩).runNumber = 1 ∧
    ((importTestDayData [] villaTd1 "t1").1.runs.get ⟨0, by decide⟩).id =
      "local-" ++ villaTd1.name ++ "-" ++ toString 1 := by
  have h := C10_position_based_run_ids.1 [] villaTd1 "t1" 0 (by decide)
  exact ⟨h.1, h.2⟩

/-! ### Pipeline determinism (C4) -/

/-- C4 counterexample: the scan-and-import pipeline is stateful.  Running it
twice in succession on the identical, unchanged Villa file list (with the
identical clock value) produces different batch content: the first pass
emits the two runs, the second pass emits an empty run list because the
session-level imported-path set filters them out. -/
theorem C4_counterexample :
    (scanAndImportAll (scanAndImportAll [] villaFiles1 "t").2 villaFiles1 "t").1 ≠
      (scanAndImportAll [] villaFiles1 "t").1 := by
  decide

/-! ### The folder-name matcher versus the spec's pattern (C6) -/


/-- C6 counterexample: the spec's pattern tolerates leading whitespace and
trims the venue, but the code's regex is anchored at the first character of
the segment with no leading `\s*`, so a segment differing from a valid name
only by a leading space is rejected by the code while the claimed pattern
accepts it. -/
theorem C6_counterexample :
    specTestDayPattern " 2025-4-11 - Villa" = some ("2025-4-11", "Villa") ∧
    matchTestDayFolder " 2025-4-11 - Villa" = none := by
  refine ⟨by decide, by decide⟩

lemma ws_not_digit {c : Char} (h : isWsCh c = true) : isDigitCh c = false := by
  by_contra hc
  have hd : 48 ≤ c.toNat ∧ c.toNat ≤ 57 := by
    have h2 := eq_true_of_ne_false hc
    simpa [isDigitCh] using h2
  obtain ⟨h48, h57⟩ := hd
  simp only [isWsCh, Bool.or_eq_true, beq_iff_eq, Bool.and_eq_true,
    decide_eq_true_eq] at h
  rcases h with ((((((((((((((h | h) | h) | h) | h) | h) | h) | h) | h) | h) |
    h) | h) | h) | h) | h) <;> omega

lemma matchTestDayChars_ws_head (c : Char) (s : List Char) (h : isWsCh c = true) :
    matchTestDayChars (c :: s) = none := by
  match s with
  | [] => rfl
  | [x] => rfl
  | [x, y] => rfl
  | [x, y, z] => rfl
  | x :: y :: z :: w :: rest =>
    show matchTestDayChars (c :: x :: y :: z :: w :: rest) = none
    simp [matchTestDayChars, ws_not_digit h]

lemma matchSepVenue_ne_nil {l : List Char} {v : List Char}
    (h : matchSepVenue l = some v) : v ≠ [] := by
  unfold matchSepVenue at h
  cases hm : l.dropWhile fun c => isWsCh c with
  | nil => rw [hm] at h; cases h
  | cons c rest =>
    rw [hm] at h
    replace h : (if (decide (c = '-') || decide (c = '_')) = true then
        if rest.isEmpty = true then none
        else
          if ((rest.drop (wsConsumed rest)).all fun c => isDotCh c) = true then
            some (rest.drop (wsConsumed rest))
          else none
      else none) = some v := h
    by_cases hc : (decide (c = '-') || decide (c = '_')) = true
    · rw [if_pos hc] at h
      by_cases he : rest.isEmpty = true
      · rw [if_pos he] at h; cases h
      · rw [if_neg he] at h
        by_cases ha : ((rest.drop (wsConsumed rest)).all fun c => isDotCh c) = true
        · rw [if_pos ha] at h
          have hv : v = rest.drop (wsConsumed rest) := by
            cases h
            rfl
          have hrest : rest ≠ [] := by
            intro hnil
            rw [hnil] at he
            exact he rfl
          have hlen : 0 < rest.length := List.length_pos.mpr hrest
          have hk : wsConsumed rest ≤ rest.length - 1 := min_le_right _ _
          intro hnil
          rw [hv] at hnil
          have hlen2 := congrArg List.length hnil
          rw [List.length_drop, List.length_nil] at hlen2
          omega
        · rw [if_neg ha] at h; cases h
    · rw [if_neg hc] at h; cases h

lemma matchDayTail_venue_ne_nil {pre l : List Char} {d v : List Char}
    (h : matchDayTail pre l = some (d, v)) : v ≠ [] := by
  unfold matchDayTail at h
  rcases List.exists_of_findSome?_eq_some h with ⟨p, hp, hf⟩
  cases hsv : matchSepVenue p.2 with
  | none => rw [hsv] at hf; cases hf
  | some v2 =>
    rw [hsv] at hf
    simp only [Option.map_some', Option.some.injEq, Prod.mk.injEq] at hf
    rw [← hf.2]
    exact matchSepVenue_ne_nil hsv

lemma matchTestDayChars_venue_ne_nil {l : List Char} {d v : List Char}
    (h : matchTestDayChars l = some (d, v)) : v ≠ [] := by
  match l with
  | [] => cases h
  | [x] => cases h
  | [x, y] => cases h
  | [x, y, z] => cases h
  | [x, y, z, w] => cases h
  | x :: y :: z :: w :: e :: rest =>
    rw [show matchTestDayChars (x :: y :: z :: w :: e :: rest) =
        (if (isDigitCh x && isDigitCh y && isDigitCh z && isDigitCh w &&
            decide (e = '-')) = true then
          (digits12 rest).findSome? fun p =>
            match p.2 with
            | f :: rest2 =>
                if f = '-' then
                  matchDayTail ([x, y, z, w, '-'] ++ p.1 ++ ['-']) rest2
                else none
            | [] => none
        else none) from rfl] at h
    by_cases hg : (isDigitCh x && isDigitCh y && isDigitCh z && isDigitCh w &&
        decide (e = '-')) = true
    · rw [if_pos hg] at h
      rcases List.exists_of_findSome?_eq_some h with ⟨p, hp, hf⟩
      cases hp2 : p.2 with
      | nil => rw [hp2] at hf; cases hf
      | cons f rest2 =>
        rw [hp2] at hf
        replace hf : (if f = '-' then
            matchDayTail ([x, y, z, w, '-'] ++ p.1 ++ ['-']) rest2
          else none) = some (d, v) := hf
        by_cases hfd : f = '-'
        · rw [if_pos hfd] at hf
          exact matchDayTail_venue_ne_nil hf
        · rw [if_neg hfd] at hf; cases hf
    · rw [if_neg hg] at h; cases h

/-- C6 amended: the matcher agrees with the spec's table cases, but the
pattern is anchored: no leading whitespace is tolerated (a whitespace first
character always yields none), and the venue capture is the raw non-empty
remainder after exactly one `-`/`_` separator, not a trimmed one. -/
theorem C6_amended :
    matchTestDayFolder "2025-4-11 - Villa" = some ("2025-4-11", "Villa") ∧
    matchTestDayFolder "2025-12-25 - Test Track" = some ("2025-12-25", "Test Track") ∧
    matchTestDayFolder "Villa" = none ∧
    matchTestDayFolder "2025-4-11Villa" = none ∧
    matchTestDayFolder "2025-4-11 - Villa " = some ("2025-4-11", "Villa ") ∧
    (∀ (c : Char) (s : List Char), isWsCh c = true →
      matchTestDayFolder (String.mk (c :: s)) = none) ∧
    (∀ (s : String) (d v : String), matchTestDayFolder s = some (d, v) → v ≠ "") := by
  refine ⟨by decide, by decide, by decide, by decide, by decide, ?_, ?_⟩
  · intro c s h
    unfold matchTestDayFolder
    rw [show (String.mk (c :: s)).data = c :: s from rfl,
      matchTestDayChars_ws_head c s h]
    rfl
  · intro s d v h
    unfold matchTestDayFolder at h
    cases hm : matchTestDayChars s.data with
    | none => rw [hm] at h; cases h
    | some p =>
      rw [hm] at h
      simp only [Option.map_some', Option.some.injEq, Prod.mk.injEq] at h
      have hne := @matchTestDayChars_venue_ne_nil s.data p.1 p.2 (by rw [hm])
      rw [← h.2]
      intro hcontra
      apply hne
      have hdata : (String.mk p.2).data = ("" : String).data := by rw [hcontra]
      simpa using hdata

theorem C6_amended_witness :
    matchTestDayFolder (String.mk (' ' :: ("2025-4-11 - Villa").data)) = none ∧
    ("Villa" : String) ≠ "" := by
  exact ⟨C6_amended.2.2.2.2.2.1 ' ' ("2025-4-11 - Villa").data (by decide),
    C6_amended.2.2.2.2.2.2 "2025-4-11 - Villa" "2025-4-11" "Villa" (by decide)⟩

/-! ### Directory-map characterization (C5) -/

lemma findGroup_insertGroup_self (m : List (String × List FileEntry)) (k : String)
    (f : FileEntry) :
    findGroup (insertGroup m k f) k = some (((findGroup m k).getD []) ++ [f]) := by
  induction m with
  | nil => simp [insertGroup, findGroup]
  | cons hd rest ih =>
    obtain ⟨k2, fs⟩ := hd
    by_cases hk : k2 = k
    · subst hk
      simp [insertGroup, findGroup]
    · simp [insertGroup, findGroup, hk, ih]

lemma findGroup_insertGroup_other (m : List (String × List FileEntry)) (k k2 : String)
    (f : FileEntry) (h : k2 ≠ k) :
    findGroup (insertGroup m k f) k2 = findGroup m k2 := by
  induction m with
  | nil =>
    simp only [insertGroup, findGroup]
    rw [if_neg fun hh => h hh.symm]
  | cons hd rest ih =>
    obtain ⟨k3, fs⟩ := hd
    by_cases hk : k3 = k
    · simp only [insertGroup, if_pos hk, findGroup]
      have hne : k3 ≠ k2 := by
        rw [hk]
        exact fun hh => h hh.symm
      rw [if_neg hne, if_neg hne]
    · simp only [insertGroup, if_neg hk, findGroup]
      by_cases hk2 : k3 = k2
      · rw [if_pos hk2, if_pos hk2]
      · rw [if_neg hk2, if_neg hk2]
        exact ih

lemma ownedBy_of_owning {f : FileEntry} {k : String}
    (hp : (pathParts f.relativePath).length ≥ 2)
    (ho : owningTestDayFolder (pathParts f.relativePath) = some k) :
    ownedBy f k = true := by
  simp [ownedBy, hp, ho]

lemma not_ownedBy_short {f : FileEntry} {k : String}
    (hp : ¬ (pathParts f.relativePath).length ≥ 2) :
    ownedBy f k = false := by
  simp [ownedBy, hp]

lemma not_ownedBy_none {f : FileEntry} {k : String}
    (ho : owningTestDayFolder (pathParts f.relativePath) = none) :
    ownedBy f k = false := by
  simp [ownedBy, ho]

lemma not_ownedBy_other {f : FileEntry} {k k0 : String}
    (ho : owningTestDayFolder (pathParts f.relativePath) = some k0) (h : k0 ≠ k) :
    ownedBy f k = false := by
  simp [ownedBy, ho, h]

lemma foldl_scanStep_some (files : List FileEntry) :
    ∀ (m : List (String × List FileEntry)) (k : String) (fs : List FileEntry),
    findGroup m k = some fs →
    findGroup (files.foldl scanStep m) k =
      some (fs ++ files.filter fun f => ownedBy f k) := by
  induction files with
  | nil => intro m k fs h; simpa using h
  | cons f rest ih =>
    intro m k fs h
    rw [List.foldl_cons, List.filter_cons]
    by_cases hp : (pathParts f.relativePath).length ≥ 2
    · cases ho : owningTestDayFolder (pathParts f.relativePath) with
      | some k0 =>
        have hstep : scanStep m f = insertGroup m k0 f := by
          simp [scanStep, hp, ho]
        by_cases hk : k0 = k
        · subst hk
          have hown : ownedBy f k0 = true := ownedBy_of_owning hp ho
          rw [hown]
          have hfind : findGroup (scanStep m f) k0 = some (fs ++ [f]) := by
            rw [hstep, findGroup_insertGroup_self, h]
            rfl
          rw [ih (scanStep m f) k0 (fs ++ [f]) hfind]
          simp
        · have hown : ownedBy f k = false := not_ownedBy_other ho hk
          rw [hown]
          have hfind : findGroup (scanStep m f) k = some fs := by
            rw [hstep, findGroup_insertGroup_other m k0 k f (fun hh => hk hh.symm)]
            exact h
          simpa using ih (scanStep m f) k fs hfind
      | none =>
        have hown : ownedBy f k = false := not_ownedBy_none ho
        have hstep : scanStep m f = m := by simp [scanStep, hp, ho]
        rw [hown]
        simpa [hstep] using ih m k fs h
    · have hown : ownedBy f k = false := not_ownedBy_short hp
      have hstep : scanStep m f = m := by simp [scanStep, hp]
      rw [hown]
      simpa [hstep] using ih m k fs h

lemma foldl_scanStep_none (files : List FileEntry) :
    ∀ (m : List (String × List FileEntry)) (k : String),
    findGroup m k = none →
    findGroup (files.foldl scanStep m) k =
      if (files.filter fun f => ownedBy f k).isEmpty then none
      else some (files.filter fun f => ownedBy f k) := by
  induction files with
  | nil => intro m k h; simpa using h
  | cons f rest ih =>
    intro m k h
    rw [List.foldl_cons, List.filter_cons]
    by_cases hp : (pathParts f.relativePath).length ≥ 2
    · cases ho : owningTestDayFolder (pathParts f.relativePath) with
      | some k0 =>
        have hstep : scanStep m f = insertGroup m k0 f := by
          simp [scanStep, hp, ho]
        by_cases hk : k0 = k
        · subst hk
          have hown : ownedBy f k0 = true := ownedBy_of_owning hp ho
          rw [hown]
          have hfind : findGroup (scanStep m f) k0 = some [f] := by
            rw [hstep, findGroup_insertGroup_self, h]
            rfl
          rw [foldl_scanStep_some rest (scanStep m f) k0 [f] hfind]
          simp
        · have hown : ownedBy f k = false := not_ownedBy_other ho hk
          rw [hown]
          have hfind : findGroup (scanStep m f) k = none := by
            rw [hstep, findGroup_insertGroup_other m k0 k f (fun hh => hk hh.symm)]
            exact h
          simpa using ih (scanStep m f) k hfind
      | none =>
        have hown : ownedBy f k = false := not_ownedBy_none ho
        have hstep : scanStep m f = m := by simp [scanStep, hp, ho]
        rw [hown]
        simpa [hstep] using ih m k h
    · have hown : ownedBy f k = false := not_ownedBy_short hp
      have hstep : scanStep m f = m := by simp [scanStep, hp]
      rw [hown]
      simpa [hstep] using ih m k h

lemma mem_groupKeys_insertGroup {m : List (String × List FileEntry)} {k a : String}
    {f : FileEntry} (h : a ∈ groupKeys (insertGroup m k f)) :
    a ∈ groupKeys m ∨ a = k := by
  induction m with
  | nil =>
    simp only [insertGroup, groupKeys, List.map_cons, List.map_nil,
      List.mem_cons, List.not_mem_nil, or_false] at h
    exact Or.inr h
  | cons hd rest ih =>
    obtain ⟨k3, fs⟩ := hd
    by_cases hk : k3 = k
    · simp only [insertGroup, if_pos hk, groupKeys, List.map_cons, List.mem_cons] at h ⊢
      rcases h with h | h
      · exact Or.inl (Or.inl h)
      · exact Or.inl (Or.inr h)
    · simp only [insertGroup, if_neg hk, groupKeys, List.map_cons, List.mem_cons] at h ⊢
      rcases h with h | h
      · exact Or.inl (Or.inl h)
      · rcases ih h with h2 | h2
        · exact Or.inl (Or.inr h2)
        · exact Or.inr h2

lemma groupKeys_nodup_insertGroup {m : List (String × List FileEntry)} {k : String}
    {f : FileEntry} (h : (groupKeys m).Nodup) :
    (groupKeys (insertGroup m k f)).Nodup := by
  induction m with
  | nil => simp [insertGroup, groupKeys]
  | cons hd rest ih =>
    obtain ⟨k3, fs⟩ := hd
    simp only [groupKeys, List.map_cons, List.nodup_cons] at h
    by_cases hk : k3 = k
    · simp only [insertGroup, if_pos hk, groupKeys, List.map_cons, List.nodup_cons]
      exact h
    · simp only [insertGroup, if_neg hk, groupKeys, List.map_cons, List.nodup_cons]
      refine ⟨?_, ih h.2⟩
      intro hmem
      rcases mem_groupKeys_insertGroup hmem with h2 | h2
      · exact h.1 h2
      · exact hk h2

lemma groupKeys_nodup_scanStep {m : List (String × List FileEntry)} {f : FileEntry}
    (h : (groupKeys m).Nodup) : (groupKeys (scanStep m f)).Nodup := by
  unfold scanStep
  split
  · cases owningTestDayFolder (pathParts f.relativePath) with
    | some k => exact groupKeys_nodup_insertGroup h
    | none => exact h
  · exact h

lemma groupKeys_nodup_foldl (files : List FileEntry) :
    ∀ (m : List (String × List FileEntry)), (groupKeys m).Nodup →
    (groupKeys (files.foldl scanStep m)).Nodup := by
  induction files with
  | nil => intro m h; exact h
  | cons f rest ih =>
    intro m h
    rw [List.foldl_cons]
    exact ih (scanStep m f) (groupKeys_nodup_scanStep h)

lemma mem_of_findGroup {m : List (String × List FileEntry)} {k : String}
    {fs : List FileEntry} (h : findGroup m k = some fs) : (k, fs) ∈ m := by
  induction m with
  | nil => cases h
  | cons hd rest ih =>
    obtain ⟨k3, fs3⟩ := hd
    simp only [findGroup] at h
    by_cases hk : k3 = k
    · rw [if_pos hk] at h
      cases h
      rw [hk]
      exact List.mem_cons_self _ _
    · rw [if_neg hk] at h
      exact List.mem_cons_of_mem _ (ih h)

lemma findGroup_of_mem {m : List (String × List FileEntry)} {k : String}
    {fs : List FileEntry} (hnodup : (groupKeys m).Nodup) (h : (k, fs) ∈ m) :
    findGroup m k = some fs := by
  induction m with
  | nil => cases h
  | cons hd rest ih =>
    obtain ⟨k3, fs3⟩ := hd
    simp only [groupKeys, List.map_cons, List.nodup_cons] at hnodup
    rcases List.mem_cons.mp h with h1 | h1
    · cases h1
      simp [findGroup]
    · simp only [findGroup]
      by_cases hk : k3 = k
      · exfalso
        apply hnodup.1
        rw [hk]
        exact List.mem_map_of_mem Prod.fst h1
      · rw [if_neg hk]
        exact ih hnodup.2 h1

/-- A test-day group exists exactly for the nonempty owner-filtered file
lists: the scan's grouping attributes each file to the first matching
segment of its path. -/
lemma mem_directoryMap_iff (files : List FileEntry) (k : String)
    (fs : List FileEntry) :
    (k, fs) ∈ directoryMap files ↔
      fs = (files.filter fun f => ownedBy f k) ∧ fs ≠ [] := by
  have hchar := foldl_scanStep_none files [] k rfl
  constructor
  · intro hm
    have hnodup : (groupKeys (directoryMap files)).Nodup :=
      groupKeys_nodup_foldl files [] (by simp [groupKeys])
    have hf := findGroup_of_mem hnodup hm
    unfold directoryMap at hf
    rw [hchar] at hf
    by_cases he : (files.filter fun f => ownedBy f k).isEmpty = true
    · rw [if_pos he] at hf
      cases hf
    · rw [if_neg he] at hf
      cases hf
      exact ⟨rfl, by simpa [List.isEmpty_iff] using he⟩
  · rintro ⟨rfl, hne⟩
    apply mem_of_findGroup
    show findGroup (directoryMap files) k = _
    unfold directoryMap
    rw [hchar, if_neg (by simpa [List.isEmpty_iff] using hne)]

/-! ### Folder materialization (C5) -/

lemma marker_not_xrk {f : FileEntry} (h : isTestDayJsonName f = true) :
    isXrkName f = false := by
  have h2 : lowerStr (fileName f) = "testday.json" := by
    simpa [isTestDayJsonName] using h
  unfold isXrkName
  rw [h2]
  decide

lemma ownedBy_matchSome {f : FileEntry} {k : String} (h : ownedBy f k = true) :
    (matchTestDayFolder k).isSome = true := by
  unfold ownedBy owningTestDayFolder at h
  simp only [Bool.and_eq_true, beq_iff_eq, decide_eq_true_eq] at h
  have h3 := List.find?_some h.2
  exact h3

lemma build_some_elim {nm : String} {fs : List FileEntry} {td : TestDayFolder}
    (h : buildTestDayFolder nm fs = some td) :
    td.name = nm ∧ ∃ f ∈ fs, isXrkName f = true ∨ isTestDayJsonName f = true := by
  unfold buildTestDayFolder at h
  split at h
  · dsimp only at h
    split at h
    · rename_i hguard
      cases h
      refine ⟨rfl, ?_⟩
      rcases Bool.or_eq_true _ _ |>.mp hguard with hx | hj
      · have hpos : 0 < ((fs.filter fun f => isXrkName f).map fun f =>
            ({ name := fileName f, size := f.size, lastModified := f.lastModified,
               path := f.relativePath : XRKFile })).length := by
          simpa using hx
        rw [List.length_map] at hpos
        have hne : (fs.filter fun f => isXrkName f) ≠ [] :=
          List.ne_nil_of_length_pos hpos
        rcases List.exists_mem_of_ne_nil _ hne with ⟨f, hf⟩
        rcases List.mem_filter.mp hf with ⟨hmem, hxrk⟩
        exact ⟨f, hmem, Or.inl hxrk⟩
      · rcases List.any_eq_true.mp hj with ⟨f, hmem, hcond⟩
        rcases Bool.and_eq_true _ _ |>.mp hcond with ⟨-, hjson⟩
        exact ⟨f, hmem, Or.inr hjson⟩
    · cases h
  · cases h

lemma build_some_of {nm : String} {fs : List FileEntry} {f : FileEntry}
    (hmatch : (matchTestDayFolder nm).isSome = true) (hf : f ∈ fs)
    (hx : isXrkName f = true ∨ isTestDayJsonName f = true) :
    ∃ td, buildTestDayFolder nm fs = some td ∧ td.name = nm := by
  unfold buildTestDayFolder
  rw [if_pos hmatch]
  have hguard : ((fs.filter fun f => isXrkName f).map fun f =>
      ({ name := fileName f, size := f.size, lastModified := f.lastModified,
         path := f.relativePath : XRKFile })).length > 0 ∨
      (fs.any fun f => !isXrkName f && isTestDayJsonName f) = true := by
    rcases hx with hx | hj
    · left
      rw [List.length_map]
      have : f ∈ fs.filter fun f => isXrkName f := List.mem_filter.mpr ⟨hf, hx⟩
      exact List.length_pos.mpr (List.ne_nil_of_mem this)
    · right
      exact List.any_eq_true.mpr ⟨f, hf, by rw [marker_not_xrk hj, hj]; rfl⟩
  rw [if_pos (by simpa using hguard)]
  exact ⟨_, rfl, rfl⟩

/-- C5 counterexample: the inner folder `2025-2-2 - B` matches the date-venue
pattern and has an `.xrk` file below it, yet no TestDayFolder is emitted for
it — the file is attributed to the outermost matching segment
`2025-1-1 - A`, so the claimed "if and only if" fails. -/
theorem C5_counterexample :
    (matchTestDayFolder "2025-2-2 - B").isSome = true ∧
    (nestedFiles.any fun f => belowSeg f "2025-2-2 - B" && isXrkName f) = true ∧
    emitsTestDay nestedFiles "2025-2-2 - B" = false ∧
    emitsTestDay nestedFiles "2025-1-1 - A" = true := by
  refine ⟨by decide, by decide, by decide, by decide⟩

/-- C5 amended: a TestDayFolder is emitted for a segment if and only if some
input file is owned by that segment — i.e. the segment is the first
date-venue-matching component of the file's path — and that file is an
`.xrk` telemetry file or the `testday.json` marker.  (A matching folder with
only the marker below it is still emitted, with an empty telemetry list; a
matching folder nested beneath another matching folder is not.) -/
theorem C5_amended (files : List FileEntry) (seg : String) :
    emitsTestDay files seg = true ↔
      ∃ f ∈ files, ownedBy f seg = true ∧
        (isXrkName f = true ∨ isTestDayJsonName f = true) := by
  unfold emitsTestDay scanForTestDayFolders
  constructor
  · intro h
    rcases List.any_eq_true.mp h with ⟨td, htd, hname⟩
    rcases List.mem_filterMap.mp htd with ⟨p, hp, hbuild⟩
    obtain ⟨k, fs⟩ := p
    dsimp only at hbuild
    obtain ⟨hnm, f, hfmem, hx⟩ := build_some_elim hbuild
    rcases (mem_directoryMap_iff files k fs).mp hp with ⟨hfs, -⟩
    have hk : k = seg := by
      rw [← hnm]
      exact beq_iff_eq.mp hname
    rw [hfs, hk] at hfmem
    rcases List.mem_filter.mp hfmem with ⟨hfiles, hown⟩
    exact ⟨f, hfiles, hown, hx⟩
  · rintro ⟨f, hf, hown, hx⟩
    have hfmem : f ∈ files.filter fun g => ownedBy g seg :=
      List.mem_filter.mpr ⟨hf, hown⟩
    have hne : (files.filter fun g => ownedBy g seg) ≠ [] :=
      List.ne_nil_of_mem hfmem
    have hmem : (seg, files.filter fun g => ownedBy g seg) ∈ directoryMap files :=
      (mem_directoryMap_iff _ _ _).mpr ⟨rfl, hne⟩
    obtain ⟨td, hbuild, hnm⟩ := build_some_of (ownedBy_matchSome hown) hfmem hx
    apply List.any_eq_true.mpr
    refine ⟨td, List.mem_filterMap.mpr ⟨(seg, _), hmem, hbuild⟩, ?_⟩
    rw [hnm]
    exact beq_self_eq_true _

/-! ### Path-determinedness of the pipeline (C4 amended)

Everything `scanAndImportAll` emits is determined by the relative paths of
the input files (plus the explicit clock argument and the session state):
sizes, modification times and JSON content never reach the batch. -/

lemma forall2_path_of_map_eq :
    ∀ (l1 l2 : List FileEntry),
    l1.map FileEntry.relativePath = l2.map FileEntry.relativePath →
    List.Forall₂ (fun f g => f.relativePath = g.relativePath) l1 l2 := by
  intro l1
  induction l1 with
  | nil =>
    intro l2 h
    cases l2
    · exact List.Forall₂.nil
    · simp at h
  | cons a as ih =>
    intro l2 h
    cases l2 with
    | nil => simp at h
    | cons b bs =>
      simp only [List.map_cons, List.cons.injEq] at h
      exact List.Forall₂.cons h.1 (ih bs h.2)

lemma insertGroup_congr {m1 m2 : List (String × List FileEntry)} {k : String}
    {f g : FileEntry}
    (hm : List.Forall₂ (fun p q => p.1 = q.1 ∧
      List.Forall₂ (fun f g => f.relativePath = g.relativePath) p.2 q.2) m1 m2)
    (hf : f.relativePath = g.relativePath) :
    List.Forall₂ (fun p q => p.1 = q.1 ∧
      List.Forall₂ (fun f g => f.relativePath = g.relativePath) p.2 q.2)
      (insertGroup m1 k f) (insertGroup m2 k g) := by
  induction hm with
  | nil =>
    exact List.Forall₂.cons ⟨rfl, List.Forall₂.cons hf List.Forall₂.nil⟩
      List.Forall₂.nil
  | cons hpq htail ih =>
    rename_i p q m1t m2t
    obtain ⟨k1, fs1⟩ := p
    obtain ⟨k2, fs2⟩ := q
    obtain ⟨hk, hfs⟩ := hpq
    dsimp only at hk
    by_cases hkk : k1 = k
    · rw [show insertGroup ((k1, fs1) :: m1t) k f = (k1, fs1 ++ [f]) :: m1t by
          simp [insertGroup, hkk],
        show insertGroup ((k2, fs2) :: m2t) k g = (k2, fs2 ++ [g]) :: m2t by
          simp [insertGroup, hk ▸ hkk]]
      exact List.Forall₂.cons
        ⟨hk, List.rel_append hfs (List.Forall₂.cons hf List.Forall₂.nil)⟩ htail
    · rw [show insertGroup ((k1, fs1) :: m1t) k f =
            (k1, fs1) :: insertGroup m1t k f by simp [insertGroup, hkk],
        show insertGroup ((k2, fs2) :: m2t) k g =
            (k2, fs2) :: insertGroup m2t k g by simp [insertGroup, hk ▸ hkk]]
      exact List.Forall₂.cons ⟨hk, hfs⟩ ih

lemma scanStep_congr {m1 m2 : List (String × List FileEntry)} {f g : FileEntry}
    (hm : List.Forall₂ (fun p q => p.1 = q.1 ∧
      List.Forall₂ (fun f g => f.relativePath = g.relativePath) p.2 q.2) m1 m2)
    (hf : f.relativePath = g.relativePath) :
    List.Forall₂ (fun p q => p.1 = q.1 ∧
      List.Forall₂ (fun f g => f.relativePath = g.relativePath) p.2 q.2)
      (scanStep m1 f) (scanStep m2 g) := by
  unfold scanStep
  rw [← hf]
  by_cases hp : (pathParts f.relativePath).length ≥ 2
  · rw [if_pos hp, if_pos hp]
    cases owningTestDayFolder (pathParts f.relativePath) with
    | some k => exact insertGroup_congr hm hf
    | none => exact hm
  · rw [if_neg hp, if_neg hp]
    exact hm

lemma directoryMap_congr_aux :
    ∀ {files1 files2 : List FileEntry},
    List.Forall₂ (fun f g => f.relativePath = g.relativePath) files1 files2 →
    ∀ {m1 m2 : List (String × List FileEntry)},
    List.Forall₂ (fun p q => p.1 = q.1 ∧
      List.Forall₂ (fun f g => f.relativePath = g.relativePath) p.2 q.2) m1 m2 →
    List.Forall₂ (fun p q => p.1 = q.1 ∧
      List.Forall₂ (fun f g => f.relativePath = g.relativePath) p.2 q.2)
      (files1.foldl scanStep m1) (files2.foldl scanStep m2) := by
  intro files1 files2 hfiles
  induction hfiles with
  | nil => intro m1 m2 hm; exact hm
  | cons hf htail ih =>
    intro m1 m2 hm
    rw [List.foldl_cons, List.foldl_cons]
    exact ih (scanStep_congr hm hf)

lemma fileName_congr {f g : FileEntry} (h : f.relativePath = g.relativePath) :
    fileName f = fileName g := by
  unfold fileName
  rw [h]

lemma isXrkName_congr {f g : FileEntry} (h : f.relativePath = g.relativePath) :
    isXrkName f = isXrkName g := by
  unfold isXrkName
  rw [fileName_congr h]

lemma isTestDayJsonName_congr {f g : FileEntry}
    (h : f.relativePath = g.relativePath) :
    isTestDayJsonName f = isTestDayJsonName g := by
  unfold isTestDayJsonName
  rw [fileName_congr h]

lemma filter_xrk_congr {fs1 fs2 : List FileEntry}
    (h : List.Forall₂ (fun f g => f.relativePath = g.relativePath) fs1 fs2) :
    List.Forall₂ (fun f g => f.relativePath = g.relativePath)
      (fs1.filter fun f => isXrkName f) (fs2.filter fun f => isXrkName f) := by
  induction h with
  | nil => exact List.Forall₂.nil
  | cons hfg htail ih =>
    rename_i a b as bs
    rw [List.filter_cons, List.filter_cons, ← isXrkName_congr hfg]
    by_cases hx : isXrkName a = true
    · rw [hx]
      exact List.Forall₂.cons hfg ih
    · rw [Bool.eq_false_iff.mpr hx]
      exact ih

lemma any_marker_congr {fs1 fs2 : List FileEntry}
    (h : List.Forall₂ (fun f g => f.relativePath = g.relativePath) fs1 fs2) :
    (fs1.any fun f => !isXrkName f && isTestDayJsonName f) =
    (fs2.any fun f => !isXrkName f && isTestDayJsonName f) := by
  induction h with
  | nil => rfl
  | cons hfg htail ih =>
    rename_i a b as bs
    rw [List.any_cons, List.any_cons, isXrkName_congr hfg,
      isTestDayJsonName_congr hfg, ih]

lemma map_mkXrk_congr {fs1 fs2 : List FileEntry}
    (h : List.Forall₂ (fun f g => f.relativePath = g.relativePath) fs1 fs2) :
    List.Forall₂ (fun a b : XRKFile => a.name = b.name ∧ a.path = b.path)
      (fs1.map fun f => ({ name := fileName f, size := f.size,
                           lastModified := f.lastModified,
                           path := f.relativePath } : XRKFile))
      (fs2.map fun f => ({ name := fileName f, size := f.size,
                           lastModified := f.lastModified,
                           path := f.relativePath } : XRKFile)) := by
  induction h with
  | nil => exact List.Forall₂.nil
  | cons hfg htail ih =>
    exact List.Forall₂.cons ⟨fileName_congr hfg, hfg⟩ ih

lemma build_congr {k : String} {fs1 fs2 : List FileEntry}
    (h : List.Forall₂ (fun f g => f.relativePath = g.relativePath) fs1 fs2) :
    (buildTestDayFolder k fs1 = none ∧ buildTestDayFolder k fs2 = none) ∨
    (∃ t1 t2, buildTestDayFolder k fs1 = some t1 ∧
      buildTestDayFolder k fs2 = some t2 ∧ t1.name = t2.name ∧
      List.Forall₂ (fun a b : XRKFile => a.name = b.name ∧ a.path = b.path)
        t1.xrkFiles t2.xrkFiles) := by
  unfold buildTestDayFolder
  by_cases hm : (matchTestDayFolder k).isSome = true
  · rw [if_pos hm, if_pos hm]
    dsimp only
    have hxr := map_mkXrk_congr (filter_xrk_congr h)
    have hlen := hxr.length_eq
    have hany := any_marker_congr h
    by_cases hg : (decide (((fs1.filter fun f => isXrkName f).map fun f =>
        ({ name := fileName f, size := f.size, lastModified := f.lastModified,
           path := f.relativePath : XRKFile })).length > 0) ||
        (fs1.any fun f => !isXrkName f && isTestDayJsonName f)) = true
    · have hg2 : (decide (((fs2.filter fun f => isXrkName f).map fun f =>
          ({ name := fileName f, size := f.size, lastModified := f.lastModified,
             path := f.relativePath : XRKFile })).length > 0) ||
          (fs2.any fun f => !isXrkName f && isTestDayJsonName f)) = true := by
        rw [← hlen, ← hany]
        exact hg
      rw [if_pos hg, if_pos hg2]
      exact Or.inr ⟨_, _, rfl, rfl, rfl, hxr⟩
    · have hg2 : ¬ (decide (((fs2.filter fun f => isXrkName f).map fun f =>
          ({ name := fileName f, size := f.size, lastModified := f.lastModified,
             path := f.relativePath : XRKFile })).length > 0) ||
          (fs2.any fun f => !isXrkName f && isTestDayJsonName f)) = true := by
        rw [← hlen, ← hany]
        exact hg
      rw [if_neg hg, if_neg hg2]
      exact Or.inl ⟨rfl, rfl⟩
  · rw [if_neg hm, if_neg hm]
    exact Or.inl ⟨rfl, rfl⟩

lemma filterMap_build_congr {m1 m2 : List (String × List FileEntry)}
    (hm : List.Forall₂ (fun p q => p.1 = q.1 ∧
      List.Forall₂ (fun f g => f.relativePath = g.relativePath) p.2 q.2) m1 m2) :
    List.Forall₂ (fun t1 t2 : TestDayFolder => t1.name = t2.name ∧
      List.Forall₂ (fun a b : XRKFile => a.name = b.name ∧ a.path = b.path)
        t1.xrkFiles t2.xrkFiles)
      (m1.filterMap fun p => buildTestDayFolder p.1 p.2)
      (m2.filterMap fun p => buildTestDayFolder p.1 p.2) := by
  induction hm with
  | nil => exact List.Forall₂.nil
  | cons hpq htail ih =>
    rename_i p q m1t m2t
    obtain ⟨hk, hfs⟩ := hpq
    rw [List.filterMap_cons, List.filterMap_cons, ← hk]
    rcases @build_congr p.1 p.2 q.2 hfs with ⟨h1, h2⟩ | ⟨t1, t2, h1, h2, hrel⟩
    · rw [h1, h2]
      exact ih
    · rw [h1, h2]
      exact List.Forall₂.cons hrel ih

lemma filter_contains_congr (st : List String) {l1 l2 : List XRKFile}
    (h : List.Forall₂ (fun a b : XRKFile => a.name = b.name ∧ a.path = b.path)
      l1 l2) :
    List.Forall₂ (fun a b : XRKFile => a.name = b.name ∧ a.path = b.path)
      (l1.filter fun f => !(st.contains f.path))
      (l2.filter fun f => !(st.contains f.path)) := by
  induction h with
  | nil => exact List.Forall₂.nil
  | cons hab htail ih =>
    rename_i a b as bs
    rw [List.filter_cons, List.filter_cons, ← hab.2]
    by_cases hc : (!(st.contains a.path)) = true
    · rw [hc]
      exact List.Forall₂.cons hab ih
    · rw [Bool.eq_false_iff.mpr hc]
      exact ih

lemma mapWithIndex_congr_rel (n now : String) :
    ∀ (i : Nat) {l1 l2 : List XRKFile},
    List.Forall₂ (fun a b : XRKFile => a.name = b.name ∧ a.path = b.path) l1 l2 →
    mapWithIndex (fun j f => mkLocalRun n now j f) i l1 =
    mapWithIndex (fun j f => mkLocalRun n now j f) i l2 := by
  intro i l1 l2 h
  induction h generalizing i with
  | nil => rfl
  | cons hab htail ih =>
    rename_i a b as bs
    show mkLocalRun n now i a :: _ = mkLocalRun n now i b :: _
    rw [show mkLocalRun n now i a = mkLocalRun n now i b by
        simp [mkLocalRun, hab.1], ih (i + 1)]

lemma foldl_addPath_congr (st : List String) {l1 l2 : List XRKFile}
    (h : List.Forall₂ (fun a b : XRKFile => a.name = b.name ∧ a.path = b.path)
      l1 l2) :
    l1.foldl (fun s f => addPath s f.path) st =
    l2.foldl (fun s f => addPath s f.path) st := by
  induction h generalizing st with
  | nil => rfl
  | cons hab htail ih =>
    rw [List.foldl_cons, List.foldl_cons, hab.2]
    exact ih _

lemma import_congr {t1 t2 : TestDayFolder} (hname : t1.name = t2.name)
    (hxr : List.Forall₂ (fun a b : XRKFile => a.name = b.name ∧ a.path = b.path)
      t1.xrkFiles t2.xrkFiles) (st : List String) (now : String) :
    importTestDayData st t1 now = importTestDayData st t2 now := by
  unfold importTestDayData
  dsimp only
  rw [hname]
  have hfil := filter_contains_congr st hxr
  have hruns := mapWithIndex_congr_rel t2.name now 0 hfil
  rw [hruns, foldl_addPath_congr st (List.forall₂_take
    ((mapWithIndex (fun j f => mkLocalRun t2.name now j f) 0
      (t2.xrkFiles.filter fun f => !(st.contains f.path))).length) hxr)]

lemma scanAndImportAll_fold_congr (now : String) :
    ∀ {folders1 folders2 : List TestDayFolder},
    List.Forall₂ (fun t1 t2 : TestDayFolder => t1.name = t2.name ∧
      List.Forall₂ (fun a b : XRKFile => a.name = b.name ∧ a.path = b.path)
        t1.xrkFiles t2.xrkFiles) folders1 folders2 →
    ∀ (acc : List ImportedData × List String),
    folders1.foldl (fun acc td =>
        ((acc.1 ++ [(importTestDayData acc.2 td now).1]),
          (importTestDayData acc.2 td now).2)) acc =
    folders2.foldl (fun acc td =>
        ((acc.1 ++ [(importTestDayData acc.2 td now).1]),
          (importTestDayData acc.2 td now).2)) acc := by
  intro folders1 folders2 h
  induction h with
  | nil => intro acc; rfl
  | cons hth htail ih =>
    intro acc
    rename_i t1 t2 ts1 ts2
    rw [List.foldl_cons, List.foldl_cons, import_congr hth.1 hth.2 acc.2 now]
    exact ih _

/-- C4 amended: the scan step is a pure function of the file list, and the
entire batch content emitted by the scan-and-import pipeline is determined
by the files' relative paths together with the session imported-path state
and the clock argument — sizes, modification times and file content never
influence it.  (Byte-for-byte identical output across two invocations holds
exactly when the state and clock coincide; the counterexample shows the
sequential second invocation differs because the state has grown.) -/
theorem C4_amended (st : List String) (fs1 fs2 : List FileEntry) (now : String)
    (h : fs1.map FileEntry.relativePath = fs2.map FileEntry.relativePath) :
    scanAndImportAll st fs1 now = scanAndImportAll st fs2 now := by
  have hgroups := directoryMap_congr_aux (forall2_path_of_map_eq _ _ h)
    List.Forall₂.nil
  have hfolders := filterMap_build_congr hgroups
  unfold scanAndImportAll scanForTestDayFolders
  exact scanAndImportAll_fold_congr now hfolders ([], st)

theorem C4_amended_witness :
    scanAndImportAll [] villaFiles1 "t" = scanAndImportAll [] villaFiles1Churn "t" :=
  C4_amended [] villaFiles1 villaFiles1Churn "t" (by decide)

end UTFR
